import Mathlib

/-!
Verification of the response-normalization pipeline in `src/ai/utils.py`
(functions `sanitize_text`, `clean_invalid_json_chars`, `generate_lesson_plan`,
`normalize_ai_response`, and the `SCHEMA` constraint table).

The Python code is shallowly embedded: JSON values become an inductive type,
Python dicts become insertion-ordered association lists, and the retry loop
becomes a fuel-style recursion producing an explicit trace (result, number of
model invocations, total backoff slept).  Third-party collaborators that are
not part of this repository (the `ollama` inference client, the `json_repair`
library, and `bleach`) are passed in as function parameters; theorems that
depend on their behaviour take the documented contract of the collaborator as
a hypothesis.  `json.loads` of the standard library is modelled by a concrete
recursive-descent parser restricted to integer numerals (no floats), which is
the fragment the pipeline's claims exercise.
-/

/-- Characters stripped by Python's `str.strip()` (ASCII whitespace). -/
def isPySpace (c : Char) : Bool :=
  c = ' ' || c = '\t' || c = '\n' || c = '\r' || c = '\x0b' || c = '\x0c'

/-- Insignificant whitespace accepted by the JSON grammar (`json.loads`). -/
def isJsonWs (c : Char) : Bool :=
  c = ' ' || c = '\t' || c = '\n' || c = '\r'

/-- Drop trailing characters satisfying `p`. -/
def dropTrailing (p : Char → Bool) (l : List Char) : List Char :=
  (l.reverse.dropWhile p).reverse

/-- `str.strip()` on a character list: drop leading and trailing whitespace. -/
def pyStripL (l : List Char) : List Char :=
  dropTrailing isPySpace (l.dropWhile isPySpace)

/-- `str.strip()` on a string. -/
def pyStrip (s : String) : String :=
  ⟨pyStripL s.data⟩

/-- `content.replace("﻿", "")`: delete every byte-order mark. -/
def removeBOM (s : String) : String :=
  ⟨s.data.filter (fun c => c ≠ '﻿')⟩

/-- `value.replace("\n", " ")` for a one-character pattern: map newlines to spaces. -/
def collapseNewlines (s : String) : String :=
  ⟨s.data.map (fun c => if c = '\n' then ' ' else c)⟩

/-- Split a character list at the first occurrence of the (non-empty) pattern
`pat`, returning the part before the occurrence and the part after it. -/
def splitSeq (pat : List Char) : List Char → Option (List Char × List Char)
  | [] => none
  | c :: cs =>
    if pat.isPrefixOf (c :: cs) then some ([], (c :: cs).drop pat.length)
    else match splitSeq pat cs with
      | some (pre, post) => some (c :: pre, post)
      | none => none

/-- Substring test (used to state that sanitizer output still contains markup). -/
def containsSeq (pat s : String) : Bool :=
  (splitSeq pat.data s.data).isSome

mutual

/-- Decoded JSON values, the result type of the modelled `json.loads`.
Numbers are restricted to integers; the pipeline never relies on floats.
Arrays and objects carry their own mutual list types so that every function
over them is structurally recursive (and hence computable by the kernel). -/
inductive JsonValue where
  | null
  | bool (b : Bool)
  | num (n : Int)
  | str (s : String)
  | arr (elems : JsonArr)
  | obj (entries : JsonObj)

/-- A JSON array: a list of values. -/
inductive JsonArr where
  | nil
  | cons (head : JsonValue) (tail : JsonArr)

/-- A JSON object: an insertion-ordered list of key/value entries. -/
inductive JsonObj where
  | nil
  | cons (key : String) (value : JsonValue) (tail : JsonObj)

end

/-- View a `JsonArr` as an ordinary list. -/
def JsonArr.toList : JsonArr → List JsonValue
  | .nil => []
  | .cons x xs => x :: xs.toList

/-- Build a `JsonArr` from an ordinary list. -/
def JsonArr.ofList : List JsonValue → JsonArr
  | [] => .nil
  | x :: xs => .cons x (JsonArr.ofList xs)

/-- View a `JsonObj` as an ordinary association list. -/
def JsonObj.toList : JsonObj → List (String × JsonValue)
  | .nil => []
  | .cons k v rest => (k, v) :: rest.toList

/-- Build a `JsonObj` from an ordinary association list. -/
def JsonObj.ofList : List (String × JsonValue) → JsonObj
  | [] => .nil
  | (k, v) :: rest => .cons k v (JsonObj.ofList rest)

/-- Object literal notation-free helper used throughout the statements. -/
def JsonValue.mkObj (l : List (String × JsonValue)) : JsonValue :=
  .obj (JsonObj.ofList l)

/-- Array literal helper used throughout the statements. -/
def JsonValue.mkArr (l : List JsonValue) : JsonValue :=
  .arr (JsonArr.ofList l)

/-- One hexadecimal digit (lower case), for JSON control-character escapes.
Codes: digits start at 48, letters at 97 (so value 10 maps to code 97). -/
def hexDigit (n : Nat) : Char :=
  Char.ofNat (n + (if n < 10 then 48 else 87))

/-- How Python's `json.dumps` escapes a single character inside a string
(with `ensure_ascii=False`, so non-ASCII characters stay as they are). -/
def jsonEscChar (c : Char) : List Char :=
  if c = '"' then ['\\', '"']
  else if c = '\\' then ['\\', '\\']
  else if c = '\n' then ['\\', 'n']
  else if c = '\t' then ['\\', 't']
  else if c = '\r' then ['\\', 'r']
  else if c = '\x08' then ['\\', 'b']
  else if c = '\x0c' then ['\\', 'f']
  else if c.toNat < 32 then
    ['\\', 'u', '0', '0', hexDigit (c.toNat / 16), hexDigit (c.toNat % 16)]
  else [c]

/-- `json.dumps` of a string (quoted, escaped). -/
def dumpsStr (s : String) : String :=
  ⟨'"' :: s.data.foldr (fun c acc => jsonEscChar c ++ acc) ['"']⟩

mutual

/-- Model of `json.dumps(value, ensure_ascii=False)` with Python's default
separators: `", "` between items and `": "` after keys. -/
def dumps : JsonValue → String
  | .null => "null"
  | .bool true => "true"
  | .bool false => "false"
  | .num n => toString n
  | .str s => dumpsStr s
  | .arr xs => "[" ++ dumpsElems xs ++ "]"
  | .obj kvs => "\x7b" ++ dumpsEntries kvs ++ "\x7d"

/-- Array elements joined by `", "`. -/
def dumpsElems : JsonArr → String
  | .nil => ""
  | .cons x .nil => dumps x
  | .cons x (.cons y rest) => dumps x ++ ", " ++ dumpsElems (.cons y rest)

/-- Object entries `"key": value` joined by `", "`. -/
def dumpsEntries : JsonObj → String
  | .nil => ""
  | .cons k v .nil => dumpsStr k ++ ": " ++ dumps v
  | .cons k v (.cons k2 v2 rest) =>
    dumpsStr k ++ ": " ++ dumps v ++ ", " ++ dumpsEntries (.cons k2 v2 rest)

end

/-- Python `repr` of a string: quoted (single quotes unless the string itself
contains a single quote and no double quote), with quote/backslash/newline
escapes.  Used by `str(...)` on containers. -/
def pyReprStr (s : String) : String :=
  let q : Char := if s.data.contains '\'' && !s.data.contains '"' then '"' else '\''
  let esc := s.data.foldr
    (fun c acc =>
      (if c = q || c = '\\' then ['\\', c]
       else if c = '\n' then ['\\', 'n']
       else [c]) ++ acc) []
  ⟨q :: esc ++ [q]⟩

mutual

/-- Model of Python `str(value)`: identity on strings, `True`/`False`/`None`
for scalars, and `repr`-style rendering for lists and dicts. -/
def pyStr : JsonValue → String
  | .null => "None"
  | .bool true => "True"
  | .bool false => "False"
  | .num n => toString n
  | .str s => s
  | .arr xs => "[" ++ pyReprElems xs ++ "]"
  | .obj kvs => "\x7b" ++ pyReprEntries kvs ++ "\x7d"

/-- Model of Python `repr(value)` (strings get quoted). -/
def pyRepr : JsonValue → String
  | .str s => pyReprStr s
  | .null => "None"
  | .bool true => "True"
  | .bool false => "False"
  | .num n => toString n
  | .arr xs => "[" ++ pyReprElems xs ++ "]"
  | .obj kvs => "\x7b" ++ pyReprEntries kvs ++ "\x7d"

/-- List elements rendered by `repr`, joined by `", "`. -/
def pyReprElems : JsonArr → String
  | .nil => ""
  | .cons x .nil => pyRepr x
  | .cons x (.cons y rest) => pyRepr x ++ ", " ++ pyReprElems (.cons y rest)

/-- Dict entries rendered by `repr`, joined by `", "`. -/
def pyReprEntries : JsonObj → String
  | .nil => ""
  | .cons k v .nil => pyReprStr k ++ ": " ++ pyRepr v
  | .cons k v (.cons k2 v2 rest) =>
    pyReprStr k ++ ": " ++ pyRepr v ++ ", " ++ pyReprEntries (.cons k2 v2 rest)

end

/-- Assignment `d[k] = v` on an insertion-ordered Python dict: if the key is
present its value is replaced in place, otherwise the pair is appended. -/
def dictInsert {α : Type} (d : List (String × α)) (k : String) (v : α) :
    List (String × α) :=
  if d.any (fun p => p.1 == k) then
    d.map (fun p => if p.1 == k then (k, v) else p)
  else d ++ [(k, v)]

/-- Value of one hexadecimal digit, for `\uXXXX` escapes (code-point
arithmetic: digits sit at 48–57, lower-case letters at 97–102, upper-case at
65–70). -/
def hexVal (c : Char) : Option Nat :=
  let n := c.toNat
  if 47 < n ∧ n < 58 then some (n - 48)
  else if 96 < n ∧ n < 103 then some (n - 87)
  else if 64 < n ∧ n < 71 then some (n - 55)
  else none

/-- Body of a JSON string after the opening quote: returns the decoded string
and the characters after the closing quote.  Mirrors `json.loads` strictness:
raw control characters are rejected, escapes are the standard eight plus
`\uXXXX` (surrogate pairing is not modelled). -/
def parseStringAux (acc : List Char) : List Char → Option (String × List Char)
  | [] => none
  | c :: cs =>
    if c = '"' then some (⟨acc.reverse⟩, cs)
    else if c = '\\' then
      match cs with
      | [] => none
      | e :: cs2 =>
        if e = '"' then parseStringAux ('"' :: acc) cs2
        else if e = '\\' then parseStringAux ('\\' :: acc) cs2
        else if e = '/' then parseStringAux ('/' :: acc) cs2
        else if e = 'n' then parseStringAux ('\n' :: acc) cs2
        else if e = 't' then parseStringAux ('\t' :: acc) cs2
        else if e = 'r' then parseStringAux ('\r' :: acc) cs2
        else if e = 'b' then parseStringAux ('\x08' :: acc) cs2
        else if e = 'f' then parseStringAux ('\x0c' :: acc) cs2
        else if e = 'u' then
          match cs2 with
          | h1 :: h2 :: h3 :: h4 :: cs3 =>
            match hexVal h1, hexVal h2, hexVal h3, hexVal h4 with
            | some a, some b, some c2, some d =>
              parseStringAux (Char.ofNat (((a * 16 + b) * 16 + c2) * 16 + d) :: acc) cs3
            | _, _, _, _ => none
          | _ => none
        else none
    else if c.toNat < 32 then none
    else parseStringAux (c :: acc) cs

/-- One or more decimal digits, most significant first. -/
def parseDigits (acc : Nat) : List Char → Nat × List Char
  | [] => (acc, [])
  | c :: cs =>
    if '0' ≤ c && c ≤ '9' then parseDigits (acc * 10 + (c.toNat - '0'.toNat)) cs
    else (acc, c :: cs)

/-- An unsigned JSON integer numeral (no leading zeros).  Numerals continuing
with a fraction or exponent are outside the modelled fragment and rejected. -/
def parseNumberMag : List Char → Option (Nat × List Char)
  | [] => none
  | c :: cs =>
    if ('0' ≤ c && c ≤ '9') = false then none
    else if c = '0' && cs.head?.elim false (fun c2 => '0' ≤ c2 && c2 ≤ '9') then none
    else
      let pr := parseDigits (c.toNat - '0'.toNat) cs
      match pr.2 with
      | '.' :: _ => none
      | 'e' :: _ => none
      | 'E' :: _ => none
      | _ => some pr

/-- A JSON integer numeral with its optional minus sign. -/
def parseNumber : List Char → Option (JsonValue × List Char)
  | '-' :: rest => (parseNumberMag rest).map (fun p => (.num (-(p.1 : Int)), p.2))
  | l => (parseNumberMag l).map (fun p => (.num ((p.1 : Int)), p.2))

mutual

/-- Recursive-descent model of `json.loads` on the integer fragment: one JSON
value, leading whitespace allowed, returning the unconsumed remainder.
`fuel` only bounds recursion depth; `input.length + 1` is always enough. -/
def parseVal : Nat → List Char → Option (JsonValue × List Char)
  | 0, _ => none
  | fuel + 1, l =>
    match l.dropWhile isJsonWs with
    | [] => none
    | '\x7b' :: rest =>
      (match rest.dropWhile isJsonWs with
       | '\x7d' :: r2 => some (.obj .nil, r2)
       | other => parseMembers fuel other [])
    | '[' :: rest =>
      (match rest.dropWhile isJsonWs with
       | ']' :: r2 => some (.arr .nil, r2)
       | other => parseElems fuel other [])
    | '"' :: rest =>
      (match parseStringAux [] rest with
       | some (s, r) => some (.str s, r)
       | none => none)
    | c :: cs =>
      if "true".data.isPrefixOf (c :: cs) then some (.bool true, (c :: cs).drop 4)
      else if "false".data.isPrefixOf (c :: cs) then some (.bool false, (c :: cs).drop 5)
      else if "null".data.isPrefixOf (c :: cs) then some (.null, (c :: cs).drop 4)
      else parseNumber (c :: cs)

/-- Members of an object after `{` (first key position, whitespace skipped).
Duplicate keys follow dict-assignment semantics: the last value wins. -/
def parseMembers : Nat → List Char → List (String × JsonValue) →
    Option (JsonValue × List Char)
  | 0, _, _ => none
  | fuel + 1, l, acc =>
    match l with
    | '"' :: rest =>
      (match parseStringAux [] rest with
       | none => none
       | some (k, r1) =>
         match r1.dropWhile isJsonWs with
         | ':' :: r2 =>
           (match parseVal fuel r2 with
            | none => none
            | some (v, r3) =>
              let acc2 := dictInsert acc k v
              match r3.dropWhile isJsonWs with
              | ',' :: r4 => parseMembers fuel (r4.dropWhile isJsonWs) acc2
              | '\x7d' :: r4 => some (.obj (JsonObj.ofList acc2), r4)
              | _ => none)
         | _ => none)
    | _ => none

/-- Elements of an array after `[` (first element position, whitespace skipped). -/
def parseElems : Nat → List Char → List JsonValue → Option (JsonValue × List Char)
  | 0, _, _ => none
  | fuel + 1, l, acc =>
    match parseVal fuel l with
    | none => none
    | some (v, r1) =>
      match r1.dropWhile isJsonWs with
      | ',' :: r2 => parseElems fuel r2 (acc ++ [v])
      | ']' :: r2 => some (.arr (JsonArr.ofList (acc ++ [v])), r2)
      | _ => none

end

/-- Model of `json.loads`: parse exactly one JSON value, tolerating
surrounding whitespace, and reject trailing garbage. -/
def json_loads (s : String) : Option JsonValue :=
  let l := pyStripL s.data
  match parseVal (l.length + 1) l with
  | some (v, rest) => if rest.dropWhile isJsonWs = [] then some v else none
  | none => none


/-- The synonym table `key_map` of `normalize_ai_response`, as the literal
association list from the source (lower-cased input key to canonical field). -/
def key_map : List (String × String) :=
  [("objective", "objectives"),
   ("objectives", "objectives"),
   ("learning_objectives", "objectives"),
   ("lesson_objectives", "objectives"),
   ("teaching_materials", "teaching_materials"),
   ("materials", "teaching_materials"),
   ("resources", "teaching_materials"),
   ("reference_materials", "reference_materials"),
   ("references", "reference_materials"),
   ("bibliography", "reference_materials"),
   ("introduction", "introduction"),
   ("lesson_development", "lesson_development"),
   ("development", "lesson_development"),
   ("main_lesson", "lesson_development"),
   ("conclusion", "conclusion"),
   ("summary", "conclusion"),
   ("recapulation", "recapitulation"),
   ("recapitulation", "recapitulation"),
   ("recap", "recapitulation"),
   ("review", "recapitulation"),
   ("evaluation", "evaluation"),
   ("assessment", "evaluation"),
   ("teacher_evaluation", "teacher_evaluation"),
   ("reflection", "teacher_evaluation"),
   ("homework", "homework"),
   ("assignment", "homework"),
   ("home_work", "homework")]

/-- `str.lower()`: character-wise lower-casing. -/
def pyLower (s : String) : String :=
  ⟨s.data.map Char.toLower⟩

/-- `key_map.get(ai_key.lower(), None)`: case-insensitive synonym lookup. -/
def keyOf (k : String) : Option String :=
  key_map.lookup (pyLower k)

/-- The ten canonical fields, in the order of the `required_fields` list
(identical in `SCHEMA["required"]` and `normalize_ai_response`). -/
def required_fields : List String :=
  ["objectives", "teaching_materials", "reference_materials", "introduction",
   "lesson_development", "conclusion", "recapitulation", "evaluation",
   "teacher_evaluation", "homework"]

/-- `flatten_value`: nested structures are serialized with `json.dumps`
(default separators), newlines collapsed to spaces, and the result stripped;
other values go through `str(...)` with the same newline/strip treatment. -/
def flatten_value : JsonValue → String
  | .arr xs => pyStrip (collapseNewlines (dumps (.arr xs)))
  | .obj kvs => pyStrip (collapseNewlines (dumps (.obj kvs)))
  | v => pyStrip (collapseNewlines (pyStr v))

/-- The key-mapping loop of `normalize_ai_response`: each input entry whose
lower-cased key has a canonical mapping is flattened and dict-assigned to the
canonical key; unmapped keys are ignored. -/
def mappedFold (entries : List (String × JsonValue)) (acc : List (String × String)) :
    List (String × String) :=
  match entries with
  | [] => acc
  | (k, v) :: rest =>
    mappedFold rest
      (match keyOf k with
       | some mk => dictInsert acc mk (flatten_value v)
       | none => acc)

/-- The required-field loop of `normalize_ai_response`: every canonical field
still missing is appended with an empty-string value. -/
def fillRequired (fs : List String) (acc : List (String × String)) :
    List (String × String) :=
  match fs with
  | [] => acc
  | f :: rest =>
    fillRequired rest (if acc.any (fun p => p.1 == f) then acc else acc ++ [(f, "")])

/-- `normalize_ai_response`: fails (`ValueError`) when the decoded value is
not a dict; otherwise maps synonym keys, flattens values, and fills missing
canonical fields with empty strings. -/
def normalize_ai_response : JsonValue → Except String (List (String × String))
  | .obj o => .ok (fillRequired required_fields (mappedFold o.toList []))
  | _ => .error "AI response must be a dictionary"

/-- First value bound to key `c` in an association list. -/
def findVal {α : Type} (d : List (String × α)) (c : String) : Option α :=
  (d.find? (fun p => p.1 == c)).map Prod.snd

/-- The value of the last entry whose key maps to canonical field `c`
(the entry whose dict assignment survives in `normalize_ai_response`). -/
def lastMatch (c : String) : List (String × JsonValue) → Option JsonValue
  | [] => none
  | (k, v) :: rest =>
    match lastMatch c rest with
    | some w => some w
    | none => if keyOf k == some c then some v else none

/-- Per-field `[minLength, maxLength]` bounds of `SCHEMA["properties"]`.
`none` for a key not among the ten properties (rejected, since the schema
sets `additionalProperties: False`). -/
def SCHEMA_bounds (f : String) : Option (Nat × Nat) :=
  if f = "objectives" then some (10, 2000)
  else if f = "teaching_materials" then some (5, 1000)
  else if f = "reference_materials" then some (5, 1000)
  else if f = "introduction" then some (20, 1500)
  else if f = "lesson_development" then some (50, 5000)
  else if f = "conclusion" then some (20, 1500)
  else if f = "recapitulation" then some (10, 1000)
  else if f = "evaluation" then some (10, 1000)
  else if f = "teacher_evaluation" then some (10, 1000)
  else if f = "homework" then some (5, 1000)
  else none

/-- Minimum length of a canonical field. -/
def SCHEMA_min (f : String) : Nat :=
  match SCHEMA_bounds f with
  | some p => p.1
  | none => 0

/-- Maximum length of a canonical field. -/
def SCHEMA_max (f : String) : Nat :=
  match SCHEMA_bounds f with
  | some p => p.2
  | none => 0

/-- Whether a string value satisfies a canonical field's length bounds
(all values reaching `validate` are strings, so only `minLength`/`maxLength`
apply; bounds are inclusive as in JSON Schema). -/
def boundsOk (f : String) (v : String) : Bool :=
  match SCHEMA_bounds f with
  | some p => p.1 ≤ v.length && v.length ≤ p.2
  | none => false

/-- The fields of a record that violate `SCHEMA` when `validate` runs on it:
present keys whose value breaks its bounds or that are not among the ten
properties (`additionalProperties: False`), followed by required keys that
are missing. -/
def SCHEMA_violations (r : List (String × String)) : List String :=
  (r.filter (fun p => !boundsOk p.1 p.2)).map Prod.fst ++
    required_fields.filter (fun f => !r.any (fun p => p.1 == f))

/-- `jsonschema.validate(instance, SCHEMA)` succeeds exactly when no
violation exists. -/
def SCHEMA_validate (r : List (String × String)) : Bool :=
  SCHEMA_violations r == []

/-- Match of `` r"```json\s*(.*?)\s*```" `` (DOTALL) at the head of the text:
the marker, a greedy whitespace run, then a lazy body up to the earliest
closing fence (trailing whitespace absorbed by the second `\s*`).  Returns
the captured group and the characters after the match. -/
def matchP1At (l : List Char) : Option (List Char × List Char) :=
  if "```json".data.isPrefixOf l then
    match splitSeq "```".data ((l.drop 7).dropWhile isPySpace) with
    | some (mid, post) => some (dropTrailing isPySpace mid, post)
    | none => none
  else none

/-- Match of `` r"```\s*(.*?)\s*```" `` (DOTALL) at the head of the text. -/
def matchP2At (l : List Char) : Option (List Char × List Char) :=
  if "```".data.isPrefixOf l then
    match splitSeq "```".data ((l.drop 3).dropWhile isPySpace) with
    | some (mid, post) => some (dropTrailing isPySpace mid, post)
    | none => none
  else none

/-- Match of `` r"`(.*?)`" `` (DOTALL) at the head of the text. -/
def matchP3At (l : List Char) : Option (List Char × List Char) :=
  match l with
  | '`' :: rest =>
    (match splitSeq "`".data rest with
     | some (mid, post) => some (mid, post)
     | none => none)
  | _ => none

/-- `re.search`: does the pattern match at some position of the text? -/
def existsMatch (m : List Char → Option (List Char × List Char)) :
    List Char → Bool
  | [] => (m []).isSome
  | c :: cs => (m (c :: cs)).isSome || existsMatch m cs

/-- `re.sub(pattern, r"\1", content)`: scan left to right, replacing every
match by its captured group.  `fuel` bounds the scan; `input.length + 1`
always suffices because every match consumes at least one character. -/
def subAll (m : List Char → Option (List Char × List Char)) :
    Nat → List Char → List Char
  | 0, l => l
  | _ + 1, [] => []
  | fuel + 1, c :: cs =>
    match m (c :: cs) with
    | some (grp, rest) => grp ++ subAll m fuel rest
    | none => c :: subAll m fuel cs

/-- The fence-stripping loop of `clean_invalid_json_chars` (lines 89–97):
try the three patterns in priority order, apply only the first one that
matches somewhere (then `.strip()`), and stop. -/
def applyFencePatterns (c : String) : String :=
  let l := c.data
  if existsMatch matchP1At l then ⟨pyStripL (subAll matchP1At (l.length + 1) l)⟩
  else if existsMatch matchP2At l then ⟨pyStripL (subAll matchP2At (l.length + 1) l)⟩
  else if existsMatch matchP3At l then ⟨pyStripL (subAll matchP3At (l.length + 1) l)⟩
  else c

/-- `clean_invalid_json_chars`, parametric in the third-party `repair_json`
(`none` models the library raising).  BOM removal and strip, one fence
pattern, repair, then a `json.loads` confirmation; any failure becomes the
`ValueError("Unable to clean JSON: ...")` message. -/
def clean_invalid_json_chars (repair : String → Option String) (content : String) :
    Except String String :=
  let c := applyFencePatterns (pyStrip (removeBOM content))
  match repair c with
  | none => .error "Unable to clean JSON"
  | some cleaned =>
    if (json_loads cleaned).isSome then .ok (pyStrip cleaned)
    else .error "Unable to clean JSON"

/-- `sanitize_text`, parametric in the third-party `bleach.clean` filter:
non-string values are returned as `str(value)` (the early-return branch),
strings are passed through the filter. -/
def sanitize_text (bleach_clean : String → String) (v : JsonValue) : String :=
  match v with
  | .str s => bleach_clean s
  | _ => pyStr v

/-- `LessonPlanConfig` (the `temperature` float is only forwarded to the
external inference service and is not modelled). -/
structure LessonPlanConfig where
  model_name : String := "gemma3:1b-it-qat"
  max_retries : Nat := 3
  timeout : Nat := 120

/-- The Python exceptions that can arise inside one attempt of
`generate_lesson_plan` (every constructor models a subclass of `Exception`):
`json.JSONDecodeError` from the parse, `jsonschema.ValidationError` from the
validate call, `ValueError` from the insufficient-content check /
`clean_invalid_json_chars` / `normalize_ai_response`, and anything else the
external model client raises. -/
inductive PyExc where
  | jsonDecodeError
  | validationError (fields : List String)
  | valueError (msg : String)
  | externalError (msg : String)
deriving Repr, DecidableEq

/-- Which attempt-local exceptions the three `except` clauses of the retry
loop catch: `except json.JSONDecodeError`, `except ValidationError`, and
`except Exception` (which catches every remaining `Exception` subclass). -/
def caughtByAttemptHandlers : PyExc → Bool
  | .jsonDecodeError => true
  | .validationError _ => true
  | .valueError _ => true
  | .externalError _ => true

/-- Caller-visible outcomes: the terminal
`ValueError("Failed to generate valid lesson plan ...") from last_error`
(generation exhausted, carrying the most recent cause), or an attempt
exception escaping the loop uncaught (shown to be impossible). -/
inductive GenError where
  | exhausted (cause : Option PyExc)
  | uncaught (e : PyExc)
deriving Repr, DecidableEq

/-- One attempt of the `generate_lesson_plan` loop body, given the outcome of
the `ollama.chat` call for this attempt: insufficient-content check, clean,
parse, normalize, validate, in source order. -/
def attemptOnce (repair : String → Option String)
    (chat : Except PyExc String) : Except PyExc (List (String × String)) :=
  match chat with
  | .error e => .error e
  | .ok content =>
    if content = "" || (pyStrip content).length < 50 then
      .error (.valueError "AI returned insufficient content")
    else
      match clean_invalid_json_chars repair content with
      | .error msg => .error (.valueError msg)
      | .ok clean_content =>
        match json_loads clean_content with
        | none => .error .jsonDecodeError
        | some parsed =>
          match normalize_ai_response parsed with
          | .error msg => .error (.valueError msg)
          | .ok normalized =>
            if SCHEMA_validate normalized then .ok normalized
            else .error (.validationError (SCHEMA_violations normalized))

/-- Trace of one run of the retry loop: the result, how many times the model
was invoked, and the total backoff (in seconds) slept between attempts. -/
structure RunTrace where
  result : Except GenError (List (String × String))
  calls : Nat
  backoff : Nat
deriving Repr

/-- The retry loop of `generate_lesson_plan`: `remaining` iterations left,
`i` the current 0-based attempt index, `last` the most recent failure.
On success the record is returned immediately; a caught failure sleeps
`2 ^ i` (except after the final attempt) and retries; when the loop ends the
terminal error is raised from the most recent cause. -/
def runAttempts (chatR : Nat → Except PyExc String) (repair : String → Option String)
    (maxRetries : Nat) : Nat → Nat → Option PyExc → RunTrace
  | 0, _, last => ⟨.error (.exhausted last), 0, 0⟩
  | remaining + 1, i, _last =>
    match attemptOnce repair (chatR i) with
    | .ok record => ⟨.ok record, 1, 0⟩
    | .error e =>
      if caughtByAttemptHandlers e then
        let sleep := if i < maxRetries - 1 then 2 ^ i else 0
        let t := runAttempts chatR repair maxRetries remaining (i + 1) (some e)
        ⟨t.result, t.calls + 1, t.backoff + sleep⟩
      else ⟨.error (.uncaught e), 1, 0⟩

/-- `generate_lesson_plan(prompt, config)`, parametric in the external model
(`chatR n` is the text `ollama.chat` returns on the `n`-th attempt, or the
exception it raises) and in the third-party `repair_json`. -/
def generate_lesson_plan (chatR : Nat → Except PyExc String)
    (repair : String → Option String) (config : LessonPlanConfig) : RunTrace :=
  runAttempts chatR repair config.max_retries config.max_retries 0 none

/-- `repair_json` instance used by concrete witnesses: a repairer that
passes already-valid JSON through unchanged and gives up otherwise.  It
satisfies the library's contract on every valid input. -/
def repairId (s : String) : Option String :=
  if (json_loads s).isSome then some s else none

/-- A well-formed model response used by concrete witnesses: every canonical
field present with a value meeting its length bounds. -/
def sampleResponse : String :=
  "\x7b\"objectives\": \"0123456789\", \"teaching_materials\": \"abcde\", " ++
  "\"reference_materials\": \"abcde\", \"introduction\": \"01234567890123456789\", " ++
  "\"lesson_development\": \"01234567890123456789012345678901234567890123456789\", " ++
  "\"conclusion\": \"01234567890123456789\", \"recapitulation\": \"0123456789\", " ++
  "\"evaluation\": \"0123456789\", \"teacher_evaluation\": \"0123456789\", " ++
  "\"homework\": \"abcde\"\x7d"

/-- The record `generate_lesson_plan` produces from `sampleResponse`. -/
def sampleRecord : List (String × String) :=
  [("objectives", "0123456789"),
   ("teaching_materials", "abcde"),
   ("reference_materials", "abcde"),
   ("introduction", "01234567890123456789"),
   ("lesson_development", "01234567890123456789012345678901234567890123456789"),
   ("conclusion", "01234567890123456789"),
   ("recapitulation", "0123456789"),
   ("evaluation", "0123456789"),
   ("teacher_evaluation", "0123456789"),
   ("homework", "abcde")]


theorem JsonObj.toList_ofList (l : List (String × JsonValue)) :
    JsonObj.toList (JsonObj.ofList l) = l := by
  induction l with
  | nil => rfl
  | cons p rest ih => cases p; simp [JsonObj.ofList, JsonObj.toList, ih]

/-- A successful association-list lookup returns one of the stored values. -/
theorem lookup_mem_snd {α β : Type} [BEq α] (l : List (α × β)) (k : α) (c : β)
    (h : l.lookup k = some c) : c ∈ l.map Prod.snd := by
  induction l with
  | nil => simp [List.lookup] at h
  | cons p rest ih =>
    cases p with
    | mk a b =>
      rw [List.lookup] at h
      by_cases hu : (k == a) = true
      · simp [hu] at h
        simp [h]
      · simp [hu] at h
        simp [ih h]

/-- A synonym lookup can only produce one of the ten canonical fields. -/
theorem keyOf_mem_required {k c : String} (h : keyOf k = some c) :
    c ∈ required_fields := by
  have hmem : c ∈ key_map.map Prod.snd := lookup_mem_snd key_map (pyLower k) c h
  have hsub : ∀ x ∈ key_map.map Prod.snd, x ∈ required_fields := by decide
  exact hsub c hmem

theorem findVal_nil {α : Type} (c : String) : findVal ([] : List (String × α)) c = none := rfl

theorem findVal_cons {α : Type} (k : String) (v : α) (d : List (String × α)) (c : String) :
    findVal ((k, v) :: d) c = if k = c then some v else findVal d c := by
  unfold findVal
  by_cases h : k = c
  · rw [List.find?_cons_of_pos _ (by simp [h]), if_pos h]
    rfl
  · rw [List.find?_cons_of_neg _ (by simp [h]), if_neg h]

theorem findVal_append_single {α : Type} (d : List (String × α)) (f c : String) (x : α) :
    findVal (d ++ [(f, x)]) c =
      match findVal d c with
      | some v => some v
      | none => if f = c then some x else none := by
  induction d with
  | nil =>
    rw [List.nil_append, findVal_nil, findVal_cons, findVal_nil]
  | cons p rest ih =>
    cases p with
    | mk k v =>
      rw [List.cons_append, findVal_cons, findVal_cons]
      by_cases h : k = c
      · rw [if_pos h, if_pos h]
      · rw [if_neg h, if_neg h, ih]

theorem any_key_iff_findVal {α : Type} (d : List (String × α)) (k : String) :
    d.any (fun p => p.1 == k) = true ↔ (findVal d k).isSome := by
  induction d with
  | nil => simp [findVal_nil]
  | cons p rest ih =>
    cases p with
    | mk a b =>
      by_cases h : a = k
      · simp [findVal_cons, h]
      · simpa [findVal_cons, h] using ih

theorem find?_map_replace_eq {α : Type} (d : List (String × α)) (k : String) (v : α) :
    (d.map (fun p => if p.1 == k then (k, v) else p)).find? (fun p => p.1 == k) =
      (d.find? (fun p => p.1 == k)).map (fun _ => (k, v)) := by
  induction d with
  | nil => rfl
  | cons p rest ih =>
    cases p with
    | mk a b =>
      rw [List.map_cons]
      by_cases h : a = k
      · subst h
        rw [show (if ((a, b).1 == a) = true then (a, v) else (a, b)) = (a, v) by simp]
        rw [List.find?_cons_of_pos _ (by simp), List.find?_cons_of_pos _ (by simp)]
        rfl
      · rw [show (if ((a, b).1 == k) = true then (k, v) else (a, b)) = (a, b) by simp [h]]
        rw [List.find?_cons_of_neg _ (by simp [h]), List.find?_cons_of_neg _ (by simp [h])]
        exact ih

theorem find?_map_replace_ne {α : Type} (d : List (String × α)) (k c : String) (v : α)
    (hkc : k ≠ c) :
    (d.map (fun p => if p.1 == k then (k, v) else p)).find? (fun p => p.1 == c) =
      d.find? (fun p => p.1 == c) := by
  induction d with
  | nil => rfl
  | cons p rest ih =>
    cases p with
    | mk a b =>
      rw [List.map_cons]
      by_cases hak : a = k
      · subst hak
        rw [show (if ((a, b).1 == a) = true then (a, v) else (a, b)) = (a, v) by simp]
        rw [List.find?_cons_of_neg _ (by simp [hkc]), List.find?_cons_of_neg _ (by simp [hkc])]
        exact ih
      · rw [show (if ((a, b).1 == k) = true then (k, v) else (a, b)) = (a, b) by simp [hak]]
        by_cases hac : a = c
        · rw [List.find?_cons_of_pos _ (by simp [hac]), List.find?_cons_of_pos _ (by simp [hac])]
        · rw [List.find?_cons_of_neg _ (by simp [hac]), List.find?_cons_of_neg _ (by simp [hac])]
          exact ih

theorem findVal_dictInsert {α : Type} (d : List (String × α)) (k c : String) (v : α) :
    findVal (dictInsert d k v) c = if k = c then some v else findVal d c := by
  unfold dictInsert
  by_cases hany : d.any (fun p => p.1 == k) = true
  · rw [if_pos hany]
    by_cases hkc : k = c
    · subst hkc
      unfold findVal
      rw [find?_map_replace_eq]
      have hsome : (d.find? (fun p => p.1 == k)).isSome := by
        rw [List.find?_isSome]
        simpa using hany
      cases hfind : d.find? (fun p => p.1 == k) with
      | none => rw [hfind] at hsome; simp at hsome
      | some p => simp
    · unfold findVal
      rw [find?_map_replace_ne d k c v hkc, if_neg hkc]
  · rw [if_neg hany, findVal_append_single]
    have hnone : findVal d k = none := by
      cases hv : findVal d k with
      | none => rfl
      | some w => exact absurd ((any_key_iff_findVal d k).mpr (by simp [hv])) hany
    by_cases hkc : k = c
    · subst hkc
      rw [hnone, if_pos rfl]
    · cases hv : findVal d c with
      | none => rfl
      | some w => simp [hkc]

theorem mem_keys_iff_any {α : Type} (d : List (String × α)) (k : String) :
    k ∈ d.map Prod.fst ↔ d.any (fun p => p.1 == k) = true := by
  simp [List.mem_map, List.any_eq_true]

theorem findVal_mappedFold (entries : List (String × JsonValue)) :
    ∀ (acc : List (String × String)) (c : String),
    findVal (mappedFold entries acc) c =
      match lastMatch c entries with
      | some v => some (flatten_value v)
      | none => findVal acc c := by
  induction entries with
  | nil => intro acc c; rfl
  | cons p rest ih =>
    intro acc c
    cases p with
    | mk k v =>
      simp only [mappedFold]
      cases hk : keyOf k with
      | none =>
        rw [ih]
        cases hm : lastMatch c rest <;> simp [lastMatch, hm, hk]
      | some mk =>
        rw [ih]
        cases hm : lastMatch c rest with
        | some w => simp [lastMatch, hm]
        | none =>
          by_cases hmc : mk = c
          · subst hmc
            simp [lastMatch, hm, hk, findVal_dictInsert]
          · simp [lastMatch, hm, hk, findVal_dictInsert, hmc, Ne.symm hmc]

theorem findVal_fillRequired (fs : List String) :
    ∀ (acc : List (String × String)) (c : String),
    findVal (fillRequired fs acc) c =
      match findVal acc c with
      | some v => some v
      | none => if c ∈ fs then some "" else none := by
  induction fs with
  | nil =>
    intro acc c
    cases hv : findVal acc c <;> simp [fillRequired, hv]
  | cons f rest ih =>
    intro acc c
    simp only [fillRequired]
    by_cases hany : acc.any (fun p => p.1 == f) = true
    · rw [if_pos hany, ih]
      have hsome : (findVal acc f).isSome := (any_key_iff_findVal acc f).mp hany
      by_cases hcf : c = f
      · subst hcf
        cases hv : findVal acc c with
        | none => rw [hv] at hsome; simp at hsome
        | some w => simp [hv]
      · cases hv : findVal acc c <;> simp [hv, hcf]
    · rw [if_neg hany, ih, findVal_append_single]
      have hnone : findVal acc f = none := by
        cases hv : findVal acc f with
        | none => rfl
        | some w => exact absurd ((any_key_iff_findVal acc f).mpr (by simp [hv])) hany
      by_cases hcf : c = f
      · subst hcf
        simp [hnone]
      · have hfc : ¬f = c := fun h => hcf h.symm
        cases hv : findVal acc c <;> simp [hv, hcf, hfc]

theorem keys_dictInsert {α : Type} (d : List (String × α)) (k : String) (v : α) :
    (dictInsert d k v).map Prod.fst =
      if d.any (fun p => p.1 == k) then d.map Prod.fst else d.map Prod.fst ++ [k] := by
  unfold dictInsert
  by_cases hany : d.any (fun p => p.1 == k) = true
  · rw [if_pos hany, if_pos hany, List.map_map]
    congr 1
    funext p
    by_cases h : p.1 = k <;> simp [h]
  · rw [if_neg hany, if_neg hany, List.map_append]
    rfl

theorem mem_keys_mappedFold (entries : List (String × JsonValue)) :
    ∀ (acc : List (String × String)) (x : String),
      x ∈ (mappedFold entries acc).map Prod.fst →
      x ∈ acc.map Prod.fst ∨ x ∈ required_fields := by
  induction entries with
  | nil => intro acc x hx; exact Or.inl hx
  | cons p rest ih =>
    intro acc x hx
    cases p with
    | mk k v =>
      simp only [mappedFold] at hx
      cases hk : keyOf k with
      | none =>
        rw [hk] at hx
        exact ih acc x hx
      | some mk =>
        rw [hk] at hx
        rcases ih _ x hx with h | h
        · rw [keys_dictInsert] at h
          by_cases hany : acc.any (fun p => p.1 == mk) = true
        
          · rw [if_pos hany] at h
            exact Or.inl h
          · rw [if_neg hany] at h
            rcases List.mem_append.mp h with h2 | h2
            · exact Or.inl h2
            · rcases List.mem_singleton.mp h2 with rfl
              exact Or.inr (keyOf_mem_required hk)
        · exact Or.inr h

theorem nodup_keys_mappedFold (entries : List (String × JsonValue)) :
    ∀ (acc : List (String × String)), (acc.map Prod.fst).Nodup →
      ((mappedFold entries acc).map Prod.fst).Nodup := by
  induction entries with
  | nil => intro acc h; exact h
  | cons p rest ih =>
    intro acc h
    cases p with
    | mk k v =>
      simp only [mappedFold]
      cases hk : keyOf k with
      | none => exact ih acc h
      | some mk =>
        apply ih
        rw [keys_dictInsert]
        by_cases hany : acc.any (fun p => p.1 == mk) = true
        · rw [if_pos hany]; exact h
        · rw [if_neg hany]
          have hnot : mk ∉ acc.map Prod.fst := fun hmem =>
            hany ((mem_keys_iff_any acc mk).mp hmem)
          simp [List.nodup_append, h, hnot]

theorem mem_keys_fillRequired_of_mem (fs : List String) :
    ∀ (acc : List (String × String)) (x : String),
      x ∈ acc.map Prod.fst → x ∈ (fillRequired fs acc).map Prod.fst := by
  induction fs with
  | nil => intro acc x hx; exact hx
  | cons f rest ih =>
    intro acc x hx
    simp only [fillRequired]
    by_cases hany : acc.any (fun p => p.1 == f) = true
    · rw [if_pos hany]
      exact ih acc x hx
    · rw [if_neg hany]
      exact ih _ x (by rw [List.map_append]; exact List.mem_append_left _ hx)

theorem mem_keys_fillRequired_of_mem_fs (fs : List String) :
    ∀ (acc : List (String × String)) (x : String),
      x ∈ fs → x ∈ (fillRequired fs acc).map Prod.fst := by
  induction fs with
  | nil => intro acc x hx; cases hx
  | cons f rest ih =>
    intro acc x hx
    simp only [fillRequired]
    rcases List.mem_cons.mp hx with rfl | hx2
    · by_cases hany : acc.any (fun p => p.1 == x) = true
      · rw [if_pos hany]
        exact mem_keys_fillRequired_of_mem rest acc x ((mem_keys_iff_any acc x).mpr hany)
      · rw [if_neg hany]
        exact mem_keys_fillRequired_of_mem rest _ x
          (by rw [List.map_append]; exact List.mem_append_right _ (by simp))
    · by_cases hany : acc.any (fun p => p.1 == f) = true
      · rw [if_pos hany]
        exact ih acc x hx2
      · rw [if_neg hany]
        exact ih _ x hx2

theorem mem_keys_fillRequired (fs : List String) :
    ∀ (acc : List (String × String)) (x : String),
      x ∈ (fillRequired fs acc).map Prod.fst →
      x ∈ acc.map Prod.fst ∨ x ∈ fs := by
  induction fs with
  | nil => intro acc x hx; exact Or.inl hx
  | cons f rest ih =>
    intro acc x hx
    simp only [fillRequired] at hx
    by_cases hany : acc.any (fun p => p.1 == f) = true
    · rw [if_pos hany] at hx
      rcases ih acc x hx with h | h
      · exact Or.inl h
      · exact Or.inr (List.mem_cons_of_mem f h)
    · rw [if_neg hany] at hx
      rcases ih _ x hx with h | h
      · rw [List.map_append] at h
        rcases List.mem_append.mp h with h2 | h2
        · exact Or.inl h2
        · rcases List.mem_singleton.mp h2 with rfl
          exact Or.inr (List.mem_cons_self _ _)
      · exact Or.inr (List.mem_cons_of_mem f h)

theorem nodup_keys_fillRequired (fs : List String) :
    ∀ (acc : List (String × String)), (acc.map Prod.fst).Nodup →
      ((fillRequired fs acc).map Prod.fst).Nodup := by
  induction fs with
  | nil => intro acc h; exact h
  | cons f rest ih =>
    intro acc h
    simp only [fillRequired]
    by_cases hany : acc.any (fun p => p.1 == f) = true
    · rw [if_pos hany]
      exact ih acc h
    · rw [if_neg hany]
      apply ih
      rw [List.map_append]
      have hnot : f ∉ acc.map Prod.fst := fun hmem =>
        hany ((mem_keys_iff_any acc f).mp hmem)
      simp [List.nodup_append, h, hnot]

theorem lastMatch_append (c : String) (l1 l2 : List (String × JsonValue)) :
    lastMatch c (l1 ++ l2) =
      match lastMatch c l2 with
      | some w => some w
      | none => lastMatch c l1 := by
  induction l1 with
  | nil => cases hm : lastMatch c l2 <;> simp [lastMatch, hm]
  | cons p rest ih =>
    cases p with
    | mk k v =>
      simp only [List.cons_append, lastMatch, List.append_eq]
      rw [ih]
      cases hm2 : lastMatch c l2 <;> cases hmr : lastMatch c rest <;> simp [hm2, hmr]

theorem lastMatch_none_of_no_key (c : String) (l : List (String × JsonValue))
    (h : ∀ p ∈ l, keyOf p.1 ≠ some c) : lastMatch c l = none := by
  induction l with
  | nil => rfl
  | cons p rest ih =>
    cases p with
    | mk k v =>
      have hk : keyOf k ≠ some c := h (k, v) (List.mem_cons_self _ _)
      rw [lastMatch, ih (fun q hq => h q (List.mem_cons_of_mem _ hq))]
      simp [hk]

theorem normalize_obj (entries : List (String × JsonValue)) :
    normalize_ai_response (.mkObj entries) =
      .ok (fillRequired required_fields (mappedFold entries [])) := by
  simp [normalize_ai_response, JsonValue.mkObj, JsonObj.toList_ofList]

theorem findVal_normalize (entries : List (String × JsonValue)) (c : String) :
    findVal (fillRequired required_fields (mappedFold entries [])) c =
      match lastMatch c entries with
      | some v => some (flatten_value v)
      | none => if c ∈ required_fields then some "" else none := by
  rw [findVal_fillRequired, findVal_mappedFold]
  cases hm : lastMatch c entries <;> simp [findVal_nil]

/-- The keys of a normalized record are a permutation of the ten canonical
fields: each appears exactly once and nothing else appears. -/
theorem keys_perm_fill (entries : List (String × JsonValue)) :
    ((fillRequired required_fields (mappedFold entries [])).map Prod.fst).Perm
      required_fields := by
  have h1 : ((fillRequired required_fields (mappedFold entries [])).map Prod.fst).Nodup :=
    nodup_keys_fillRequired _ _ (nodup_keys_mappedFold _ _ (by simp))
  have h2 : required_fields.Nodup := by decide
  rw [List.perm_ext_iff_of_nodup h1 h2]
  intro a
  constructor
  · intro ha
    rcases mem_keys_fillRequired _ _ a ha with h | h
    · rcases mem_keys_mappedFold _ _ a h with h3 | h3
      · simp at h3
      · exact h3
    · exact h
  · intro ha
    exact mem_keys_fillRequired_of_mem_fs _ _ a ha

/-- A successful normalization always yields canonical keys. -/
theorem keys_perm_of_normalize {j : JsonValue} {r : List (String × String)}
    (h : normalize_ai_response j = .ok r) :
    (r.map Prod.fst).Perm required_fields := by
  cases j with
  | obj o =>
    have heq : r = fillRequired required_fields (mappedFold o.toList []) := by
      simpa [normalize_ai_response] using h.symm
    rw [heq]
    exact keys_perm_fill o.toList
  | null => exact Except.noConfusion h
  | bool b => exact Except.noConfusion h
  | num n => exact Except.noConfusion h
  | str s2 => exact Except.noConfusion h
  | arr a2 => exact Except.noConfusion h

/-- C4: `normalize_ai_response` fails exactly on non-mapping input, and on
every mapping input it succeeds with a record whose keys are exactly the ten
canonical fields (each exactly once), where every canonical field to which no
input key maps (after synonym lookup) is bound to the empty string; the
empty mapping yields the all-empty-string record. -/
theorem claim_C4_normalizer_totality :
    (∀ entries : List (String × JsonValue),
      ∃ r, normalize_ai_response (.mkObj entries) = .ok r ∧
        (r.map Prod.fst).Perm required_fields ∧
        (∀ c ∈ required_fields, (∀ p ∈ entries, keyOf p.1 ≠ some c) →
          findVal r c = some "")) ∧
    normalize_ai_response (.mkObj []) =
      .ok (required_fields.map (fun f => (f, ""))) ∧
    (∀ j : JsonValue, (∀ o : JsonObj, j ≠ .obj o) →
      ∃ msg, normalize_ai_response j = .error msg) := by
  refine ⟨?_, by rfl, ?_⟩
  · intro entries
    refine ⟨_, normalize_obj entries, keys_perm_fill entries, ?_⟩
    intro c hc hnone
    rw [findVal_normalize, lastMatch_none_of_no_key c entries hnone]
    rw [if_pos hc]
  · intro j hj
    cases j with
    | obj o2 => exact absurd rfl (hj o2)
    | null => exact ⟨_, rfl⟩
    | bool b => exact ⟨_, rfl⟩
    | num n => exact ⟨_, rfl⟩
    | str s2 => exact ⟨_, rfl⟩
    | arr a2 => exact ⟨_, rfl⟩

/-- C4 witness: a concrete non-empty mapping whose only key is unrecognized
succeeds with exactly the canonical keys and `homework` defaulted to the
empty string, and a concrete non-mapping input is rejected. -/
theorem claim_C4_witness :
    (∃ r, normalize_ai_response (.mkObj [("foo", .str "bar")]) = .ok r ∧
      (r.map Prod.fst).Perm required_fields ∧
      findVal r "homework" = some "") ∧
    (∃ msg, normalize_ai_response (.str "not a mapping") = .error msg) := by
  constructor
  · obtain ⟨r, hr, hperm, hdef⟩ :=
      claim_C4_normalizer_totality.1 [("foo", .str "bar")]
    exact ⟨r, hr, hperm, hdef "homework" (by decide) (by decide)⟩
  · exact claim_C4_normalizer_totality.2.2 (.str "not a mapping")
      (fun _ h => JsonValue.noConfusion h)

/-- C7 counterexample: `flatten_value` serializes nested structures with
Python's default `json.dumps` separators — a comma followed by a space — so
the `materials` list flattens to `["book", "chalk"]`, not to the compact
`["book","chalk"]` the claim asserts. -/
theorem claim_C7_counterexample :
    flatten_value (.mkArr [.str "book", .str "chalk"]) = "[\"book\", \"chalk\"]" ∧
    (("[\"book\", \"chalk\"]" : String) == "[\"book\",\"chalk\"]") = false ∧
    (∃ r, normalize_ai_response
        (.mkObj [("objective", .str "Teach X"),
                 ("materials", .mkArr [.str "book", .str "chalk"])]) = .ok r ∧
      findVal r "teaching_materials" = some "[\"book\", \"chalk\"]") := by
  refine ⟨rfl, by decide, ⟨_, rfl, rfl⟩⟩

/-- C7 (amended): nested values are flattened by serializing with
`json.dumps` (default separators: comma-space between items) and collapsing
newlines to spaces; in the spec's scenario the normalized
`teaching_materials` field is exactly `["book", "chalk"]` and `objectives`
is `Teach X`. -/
theorem claim_C7_flatten_nested :
    (∀ xs : JsonArr, flatten_value (.arr xs) = pyStrip (collapseNewlines (dumps (.arr xs)))) ∧
    (∀ kvs : JsonObj, flatten_value (.obj kvs) = pyStrip (collapseNewlines (dumps (.obj kvs)))) ∧
    dumps (.mkArr [.str "book", .str "chalk"]) = "[\"book\", \"chalk\"]" ∧
    (∃ r, normalize_ai_response
        (.mkObj [("objective", .str "Teach X"),
                 ("materials", .mkArr [.str "book", .str "chalk"])]) = .ok r ∧
      findVal r "teaching_materials" = some "[\"book\", \"chalk\"]" ∧
      findVal r "objectives" = some "Teach X" ∧
      findVal r "conclusion" = some "") :=
  ⟨fun _ => rfl, fun _ => rfl, rfl, ⟨_, rfl, rfl, rfl, rfl⟩⟩

/-- C10: when several distinct input keys map to the same canonical field,
the dict assignment of the last such key (in iteration order) overwrites the
earlier ones, so the normalized record holds the flattened value of the last
occurrence. -/
theorem claim_C10_last_synonym_wins
    (A B C : List (String × JsonValue)) (k1 k2 c : String) (v1 v2 : JsonValue)
    (_h1 : keyOf k1 = some c) (h2 : keyOf k2 = some c)
    (hC : ∀ p ∈ C, keyOf p.1 ≠ some c) :
    ∃ r, normalize_ai_response (.mkObj (A ++ (k1, v1) :: B ++ (k2, v2) :: C)) = .ok r ∧
      findVal r c = some (flatten_value v2) := by
  refine ⟨_, normalize_obj _, ?_⟩
  rw [findVal_normalize]
  have hC0 : lastMatch c C = none := lastMatch_none_of_no_key c C hC
  have h2l : lastMatch c ((k2, v2) :: C) = some v2 := by
    rw [lastMatch, hC0]
    simp [h2]
  have hAll : lastMatch c (A ++ (k1, v1) :: B ++ (k2, v2) :: C) = some v2 := by
    rw [lastMatch_append, h2l]
  rw [hAll]

/-- C10 witness: `materials` and `resources` both map to
`teaching_materials`; the later `resources` value survives. -/
theorem claim_C10_witness :
    ∃ r, normalize_ai_response
        (.mkObj [("materials", .str "the book"), ("resources", .str "the chalk")]) = .ok r ∧
      findVal r "teaching_materials" = some (flatten_value (.str "the chalk")) :=
  claim_C10_last_synonym_wins [] [] [] "materials" "resources" "teaching_materials"
    (.str "the book") (.str "the chalk") (by rfl) (by rfl)
    (fun p hp => absurd hp (List.not_mem_nil p))

/-- Build a full record assigning `vals f` to every canonical field. -/
def mkRec (vals : String → String) : List (String × String) :=
  required_fields.map (fun f => (f, vals f))

theorem filter_map_keys (fs : List String) (vals : String → String)
    (P : String × String → Bool) :
    ((fs.map (fun f => (f, vals f))).filter P).map Prod.fst =
      fs.filter (fun f => P (f, vals f)) := by
  induction fs with
  | nil => rfl
  | cons f rest ih =>
    simp only [List.map_cons, List.filter_cons]
    by_cases h : P (f, vals f) = true
    · simp [h, ih]
    · simp [h, ih]

theorem violations_mkRec (vals : String → String) :
    SCHEMA_violations (mkRec vals) =
      required_fields.filter (fun g => !boundsOk g (vals g)) := by
  unfold SCHEMA_violations mkRec
  rw [filter_map_keys]
  have hmissing : required_fields.filter
      (fun f => !(required_fields.map (fun g => (g, vals g))).any (fun p => p.1 == f)) = [] := by
    rw [List.filter_eq_nil_iff]
    intro f hf
    have : (required_fields.map (fun g => (g, vals g))).any (fun p => p.1 == f) = true := by
      rw [List.any_eq_true]
      exact ⟨(f, vals f), List.mem_map_of_mem _ hf, by simp⟩
    simp [this]
  rw [hmissing, List.append_nil]

theorem filter_eq_singleton_of_unique (l : List String) (pred : String → Bool)
    (f : String) :
    l.Nodup → f ∈ l → (∀ g ∈ l, (pred g = true ↔ g = f)) → l.filter pred = [f] := by
  induction l with
  | nil => intro _ hf _; cases hf
  | cons a rest ih =>
    intro hnd hf hiff
    rcases List.mem_cons.mp hf with heq | hfr
    · subst heq
      have hpa : pred f = true := (hiff f (List.mem_cons_self _ _)).mpr rfl
      rw [List.filter_cons_of_pos hpa]
      have hrest : rest.filter pred = [] := by
        rw [List.filter_eq_nil_iff]
        intro g hg
        have hga : g ≠ f := fun h => (List.nodup_cons.mp hnd).1 (h ▸ hg)
        intro hp
        exact hga ((hiff g (List.mem_cons_of_mem _ hg)).mp hp)
      rw [hrest]
    · have hne : a ≠ f := fun h => (List.nodup_cons.mp hnd).1 (h ▸ hfr)
      have hpa : ¬pred a = true := fun hpa =>
        hne ((hiff a (List.mem_cons_self _ _)).mp hpa)
      rw [List.filter_cons_of_neg hpa]
      exact ih (List.nodup_cons.mp hnd).2 hfr
        (fun g hg => hiff g (List.mem_cons_of_mem _ hg))

/-- For every canonical field the schema stores bounds with min ≤ max. -/
theorem SCHEMA_bounds_shape : ∀ g ∈ required_fields,
    SCHEMA_bounds g = some (SCHEMA_min g, SCHEMA_max g) ∧
      SCHEMA_min g ≤ SCHEMA_max g := by decide

/-- C8: validation bounds are boundary-inclusive — with every other field in
range, a value of length exactly the field's minimum or maximum passes, and
a value one character shorter than the minimum fails, the violation list
naming exactly that field. -/
theorem claim_C8_boundary_inclusive (vals : String → String) (f : String)
    (hf : f ∈ required_fields)
    (hothers : ∀ g ∈ required_fields, g ≠ f → boundsOk g (vals g) = true) :
    (((vals f).length = SCHEMA_min f ∨ (vals f).length = SCHEMA_max f) →
      SCHEMA_validate (mkRec vals) = true) ∧
    ((vals f).length + 1 = SCHEMA_min f →
      SCHEMA_validate (mkRec vals) = false ∧
        SCHEMA_violations (mkRec vals) = [f]) := by
  have hsh := SCHEMA_bounds_shape f hf
  constructor
  · intro hb
    have hbf : boundsOk f (vals f) = true := by
      unfold boundsOk
      rw [hsh.1]
      rcases hb with h | h
      · simp [h, hsh.2]
      · simp [h, hsh.2]
    rw [SCHEMA_validate, violations_mkRec]
    have hnil : required_fields.filter (fun g => !boundsOk g (vals g)) = [] := by
      rw [List.filter_eq_nil_iff]
      intro g hg
      by_cases hgf : g = f
      · subst hgf; simp [hbf]
      · simp [hothers g hg hgf]
    simp [hnil]
  · intro hshort
    have hbf : boundsOk f (vals f) = false := by
      unfold boundsOk
      rw [hsh.1]
      have : ¬ SCHEMA_min f ≤ (vals f).length := by omega
      simp [this]
    have hfil : required_fields.filter (fun g => !boundsOk g (vals g)) = [f] := by
      apply filter_eq_singleton_of_unique _ _ _ (by decide) hf
      intro g hg
      constructor
      · intro hp
        by_contra hgf
        simp [hothers g hg hgf] at hp
      · intro hgf
        subst hgf
        simp [hbf]
    rw [SCHEMA_validate, violations_mkRec, hfil]
    exact ⟨rfl, rfl⟩

/-- All-minimum-length values for every canonical field. -/
def valsAtMin (g : String) : String :=
  ⟨List.replicate (SCHEMA_min g) 'a'⟩

/-- Like `valsAtMin` but `lesson_development` at its maximum length. -/
def valsMaxLD (g : String) : String :=
  if g = "lesson_development" then ⟨List.replicate 5000 'a'⟩ else valsAtMin g

/-- Like `valsAtMin` but `homework` one character below its minimum. -/
def valsShortHW (g : String) : String :=
  if g = "homework" then "abcd" else valsAtMin g

set_option maxRecDepth 4000 in
/-- C8 witness: minimum-length and maximum-length records pass; a record with
`homework` one character short fails, naming `homework`. -/
theorem claim_C8_witness :
    SCHEMA_validate (mkRec valsAtMin) = true ∧
    SCHEMA_validate (mkRec valsMaxLD) = true ∧
    SCHEMA_validate (mkRec valsShortHW) = false ∧
    SCHEMA_violations (mkRec valsShortHW) = ["homework"] := by
  have hAtMin : ∀ g ∈ required_fields, boundsOk g (valsAtMin g) = true := by decide
  have hothersMax : ∀ g ∈ required_fields, g ≠ "lesson_development" →
      boundsOk g (valsMaxLD g) = true := by
    intro g hg hne
    have hv : valsMaxLD g = valsAtMin g := by
      unfold valsMaxLD
      rw [if_neg hne]
    rw [hv]
    exact hAtMin g hg
  have hlenMax : (valsMaxLD "lesson_development").length =
      SCHEMA_max "lesson_development" := by
    show (String.mk (List.replicate 5000 'a')).length = SCHEMA_max "lesson_development"
    rw [show SCHEMA_max "lesson_development" = 5000 from rfl,
      show (String.mk (List.replicate 5000 'a')).length =
        (List.replicate 5000 'a').length from rfl,
      List.length_replicate]
  have h1 := (claim_C8_boundary_inclusive valsAtMin "objectives" (by decide)
    (by decide)).1 (Or.inl (by decide))
  have h2 := (claim_C8_boundary_inclusive valsMaxLD "lesson_development" (by decide)
    hothersMax).1 (Or.inr hlenMax)
  have h3 := (claim_C8_boundary_inclusive valsShortHW "homework" (by decide)
    (by decide)).2 (by decide)
  exact ⟨h1, h2, h3.1, h3.2⟩

/-- Every attempt-local exception is caught by one of the loop's `except`
clauses (all modelled exceptions are `Exception` subclasses). -/
theorem caught_all (e : PyExc) : caughtByAttemptHandlers e = true := by
  cases e <;> rfl

/-- A successful attempt returns a record only after it passed validation,
and that record came out of the normalizer. -/
theorem attemptOnce_ok {repair : String → Option String} {chat : Except PyExc String}
    {r : List (String × String)} (h : attemptOnce repair chat = .ok r) :
    SCHEMA_validate r = true ∧ (r.map Prod.fst).Perm required_fields := by
  unfold attemptOnce at h
  split at h
  · exact Except.noConfusion h
  · split at h
    · exact Except.noConfusion h
    · split at h
      · exact Except.noConfusion h
      · split at h
        · exact Except.noConfusion h
        · split at h
          · exact Except.noConfusion h
          · rename_i parsed normalized hnorm
            split at h
            · rename_i hvalid
              cases h
              exact ⟨hvalid, keys_perm_of_normalize hnorm⟩
            · exact Except.noConfusion h

/-- One unfolding of the retry loop. -/
theorem runAttempts_step (chatR : Nat → Except PyExc String)
    (repair : String → Option String) (maxR remaining i : Nat)
    (last : Option PyExc) :
    runAttempts chatR repair maxR (remaining + 1) i last =
      match attemptOnce repair (chatR i) with
      | .ok record => ⟨.ok record, 1, 0⟩
      | .error e =>
        if caughtByAttemptHandlers e then
          ⟨(runAttempts chatR repair maxR remaining (i + 1) (some e)).result,
           (runAttempts chatR repair maxR remaining (i + 1) (some e)).calls + 1,
           (runAttempts chatR repair maxR remaining (i + 1) (some e)).backoff +
             (if i < maxR - 1 then 2 ^ i else 0)⟩
        else ⟨.error (.uncaught e), 1, 0⟩ := rfl

/-- Any record the retry loop returns passed validation. -/
theorem runAttempts_ok_validate (chatR : Nat → Except PyExc String)
    (repair : String → Option String) (maxR : Nat) :
    ∀ (remaining i : Nat) (last : Option PyExc) (r : List (String × String)),
      (runAttempts chatR repair maxR remaining i last).result = .ok r →
      SCHEMA_validate r = true ∧ (r.map Prod.fst).Perm required_fields := by
  intro remaining
  induction remaining with
  | zero => intro i last r h; exact Except.noConfusion h
  | succ n ih =>
    intro i last r h
    rw [runAttempts_step] at h
    cases hA : attemptOnce repair (chatR i) with
    | ok rec =>
      rw [hA] at h
      simp at h
      rw [← h]
      exact attemptOnce_ok hA
    | error e =>
      rw [hA] at h
      simp only [caught_all, if_true] at h
      exact ih (i + 1) (some e) r h

/-- C1: whatever the model, the repair library, and the configuration do,
when `generate_lesson_plan` returns a record that record satisfies every
`SCHEMA` constraint: all ten canonical fields present (exactly once, no
extras) and every field's length within its `[min, max]` bound. -/
theorem claim_C1_validated_output (chatR : Nat → Except PyExc String)
    (repair : String → Option String) (config : LessonPlanConfig)
    (r : List (String × String))
    (h : (generate_lesson_plan chatR repair config).result = .ok r) :
    SCHEMA_validate r = true ∧ (r.map Prod.fst).Perm required_fields :=
  runAttempts_ok_validate chatR repair config.max_retries config.max_retries 0 none r h

set_option maxRecDepth 8000 in
/-- C1 witness: a concrete model stub whose response is valid on the first
attempt; the returned record is schema-valid with canonical keys. -/
theorem claim_C1_witness :
    SCHEMA_validate sampleRecord = true ∧
      (sampleRecord.map Prod.fst).Perm required_fields :=
  claim_C1_validated_output (fun _ => .ok sampleResponse) repairId {} sampleRecord
    (by rfl)

/-- The retry loop can only end in success or in the terminal error. -/
theorem runAttempts_no_uncaught (chatR : Nat → Except PyExc String)
    (repair : String → Option String) (maxR : Nat) :
    ∀ (remaining i : Nat) (last : Option PyExc),
      (∃ r, (runAttempts chatR repair maxR remaining i last).result = .ok r) ∨
      (∃ cause, (runAttempts chatR repair maxR remaining i last).result =
        .error (.exhausted cause)) := by
  intro remaining
  induction remaining with
  | zero => intro i last; exact Or.inr ⟨last, rfl⟩
  | succ n ih =>
    intro i last
    rw [runAttempts_step]
    cases hA : attemptOnce repair (chatR i) with
    | ok rec => exact Or.inl ⟨rec, rfl⟩
    | error e =>
      simp only [caught_all, if_true]
      exact ih (i + 1) (some e)

/-- C3: every attempt-local exception (the modelled `Exception` subclasses:
insufficient content, unrepairable content, invalid response shape, schema
violation, decode errors, external-client errors) is caught by the loop's
handlers and converted into a retry; no attempt error ever escapes
`generate_lesson_plan` — the caller sees a record or the terminal
generation-exhausted error only. -/
theorem claim_C3_attempt_errors_never_escape :
    (∀ e : PyExc, caughtByAttemptHandlers e = true) ∧
    (∀ (chatR : Nat → Except PyExc String) (repair : String → Option String)
       (config : LessonPlanConfig),
      (∃ r, (generate_lesson_plan chatR repair config).result = .ok r) ∨
      (∃ cause, (generate_lesson_plan chatR repair config).result =
        .error (.exhausted cause))) :=
  ⟨caught_all, fun chatR repair config =>
    runAttempts_no_uncaught chatR repair config.max_retries config.max_retries 0 none⟩

/-- All attempts up to the fuel bound fail with the same trailing error:
the loop makes every call and surfaces the terminal error chaining it. -/
theorem runAttempts_all_fail (chatR : Nat → Except PyExc String)
    (repair : String → Option String) (maxR : Nat) :
    ∀ (remaining i : Nat) (last : Option PyExc) (e : PyExc),
      (∀ j, j < remaining → ∃ e2, attemptOnce repair (chatR (i + j)) = .error e2) →
      (remaining = 0 → last = some e) →
      (∀ n, remaining = n + 1 → attemptOnce repair (chatR (i + n)) = .error e) →
      (runAttempts chatR repair maxR remaining i last).calls = remaining ∧
      (runAttempts chatR repair maxR remaining i last).result =
        .error (.exhausted (some e)) := by
  intro remaining
  induction remaining with
  | zero =>
    intro i last e _ hlast _
    rw [hlast rfl]
    exact ⟨rfl, rfl⟩
  | succ n ih =>
    intro i last e hall _ hlastatt
    obtain ⟨e0, h0⟩ := hall 0 (Nat.succ_pos n)
    rw [Nat.add_zero] at h0
    rw [runAttempts_step, h0]
    simp only [caught_all, if_true]
    have hrec := ih (i + 1) (some e0) e
      (fun j hj => by
        have := hall (j + 1) (Nat.succ_lt_succ hj)
        rwa [show i + (j + 1) = i + 1 + j by omega] at this)
      (fun hn0 => by
        subst hn0
        have := hlastatt 0 rfl
        rw [Nat.add_zero] at this
        rw [h0] at this
        cases this
        rfl)
      (fun m hm => by
        have := hlastatt (m + 1) (by omega)
        rwa [show i + (m + 1) = i + 1 + m by omega] at this)
    exact ⟨by simp [hrec.1], by simp [hrec.2]⟩

/-- Failing attempts before a success each sleep `2 ^ attempt`; success
returns immediately.  Stated additively to stay in `Nat`. -/
theorem runAttempts_early_success (chatR : Nat → Except PyExc String)
    (repair : String → Option String) (maxR : Nat) :
    ∀ (remaining i : Nat) (last : Option PyExc) (k : Nat) (r : List (String × String)),
      k < remaining →
      i + k ≤ maxR - 1 →
      (∀ j, j < k → ∃ e2, attemptOnce repair (chatR (i + j)) = .error e2) →
      attemptOnce repair (chatR (i + k)) = .ok r →
      (runAttempts chatR repair maxR remaining i last).result = .ok r ∧
      (runAttempts chatR repair maxR remaining i last).calls = k + 1 ∧
      (runAttempts chatR repair maxR remaining i last).backoff + 2 ^ i =
        2 ^ (i + k) := by
  intro remaining
  induction remaining with
  | zero => intro i last k r hk; omega
  | succ n ih =>
    intro i last k r hk hbound hfail hok
    cases k with
    | zero =>
      rw [Nat.add_zero] at hok
      rw [runAttempts_step, hok]
      exact ⟨rfl, rfl, by simp⟩
    | succ m =>
      obtain ⟨e0, h0⟩ := hfail 0 (Nat.succ_pos m)
      rw [Nat.add_zero] at h0
      rw [runAttempts_step, h0]
      simp only [caught_all, if_true]
      have hrec := ih (i + 1) (some e0) m r (by omega)
        (by omega)
        (fun j hj => by
          have := hfail (j + 1) (Nat.succ_lt_succ hj)
          rwa [show i + (j + 1) = i + 1 + j by omega] at this)
        (by rwa [show i + 1 + m = i + (m + 1) by omega])
      refine ⟨by simp [hrec.1], by simp [hrec.2.1], ?_⟩
      have hsleep : (if i < maxR - 1 then 2 ^ i else 0) = 2 ^ i := by
        rw [if_pos (by omega)]
      have hpow : (2 : Nat) ^ (i + 1) = 2 ^ i + 2 ^ i := by
        rw [pow_succ]
        omega
      have hgoal := hrec.2.2
      rw [show i + 1 + m = i + (m + 1) by omega] at hgoal
      simp only [hsleep]
      omega

/-- C2: with `max_retries = 3`, if every attempt fails the model is invoked
exactly 3 times and the terminal error chains the attempt-2 failure; if the
attempts fail up to some `k < 3` and attempt `k` succeeds, its record is
returned immediately after `k + 1` calls with total backoff `2 ^ k - 1`
(no backoff after the success). -/
theorem claim_C2_retry_bound (chatR : Nat → Except PyExc String)
    (repair : String → Option String) :
    ((∀ i, i < 3 → ∃ e, attemptOnce repair (chatR i) = .error e) →
      (generate_lesson_plan chatR repair { max_retries := 3 }).calls = 3 ∧
      ∃ e, attemptOnce repair (chatR 2) = .error e ∧
        (generate_lesson_plan chatR repair { max_retries := 3 }).result =
          .error (.exhausted (some e))) ∧
    (∀ k r, k < 3 →
      (∀ i, i < k → ∃ e, attemptOnce repair (chatR i) = .error e) →
      attemptOnce repair (chatR k) = .ok r →
      (generate_lesson_plan chatR repair { max_retries := 3 }).result = .ok r ∧
      (generate_lesson_plan chatR repair { max_retries := 3 }).calls = k + 1 ∧
      (generate_lesson_plan chatR repair { max_retries := 3 }).backoff = 2 ^ k - 1) := by
  constructor
  · intro hfail
    obtain ⟨e2, h2⟩ := hfail 2 (by omega)
    have hrun := runAttempts_all_fail chatR repair 3 3 0 none e2
      (fun j hj => by simpa using hfail j hj)
      (fun h => by cases h)
      (fun n hn => by
        have : n = 2 := by omega
        subst this
        simpa using h2)
    exact ⟨hrun.1, e2, h2, hrun.2⟩
  · intro k r hk hfail hok
    have hrun := runAttempts_early_success chatR repair 3 3 0 none k r hk
      (by omega)
      (fun j hj => by simpa using hfail j hj)
      (by simpa using hok)
    refine ⟨hrun.1, hrun.2.1, ?_⟩
    show (runAttempts chatR repair 3 3 0 none).backoff = 2 ^ k - 1
    have hsum := hrun.2.2
    have hpos : 1 ≤ (2 : Nat) ^ k := Nat.one_le_two_pow
    simp only [pow_zero, Nat.zero_add] at hsum
    omega

/-- A model stub that fails once (insufficient content) and then produces a
fully valid response. -/
def chatSecond (n : Nat) : Except PyExc String :=
  if n = 0 then .ok "too short" else .ok sampleResponse

set_option maxRecDepth 8000 in
/-- C2 witness: an always-too-short stub consumes exactly 3 calls and
surfaces the last failure as the terminal cause; a stub that succeeds on the
second call stops after 2 calls with backoff 1. -/
theorem claim_C2_witness :
    ((generate_lesson_plan (fun _ => .ok "short") repairId
        { max_retries := 3 }).calls = 3 ∧
      ∃ e, attemptOnce repairId ((fun _ => (.ok "short" : Except PyExc String)) 2)
          = .error e ∧
        (generate_lesson_plan (fun _ => .ok "short") repairId
          { max_retries := 3 }).result = .error (.exhausted (some e))) ∧
    ((generate_lesson_plan chatSecond repairId { max_retries := 3 }).result =
        .ok sampleRecord ∧
      (generate_lesson_plan chatSecond repairId { max_retries := 3 }).calls = 1 + 1 ∧
      (generate_lesson_plan chatSecond repairId { max_retries := 3 }).backoff =
        2 ^ 1 - 1) :=
  ⟨(claim_C2_retry_bound (fun _ => .ok "short") repairId).1
      (fun _ _ => ⟨.valueError "AI returned insufficient content", rfl⟩),
   (claim_C2_retry_bound chatSecond repairId).2 1 sampleRecord (by omega)
     (fun i hi => by
       have hi0 : i = 0 := by omega
       subst hi0
       exact ⟨.valueError "AI returned insufficient content", rfl⟩)
     (by rfl)⟩

/-- C9 counterexample: for a non-string input, `sanitize_text` returns
`str(value)` directly without any markup filtering — even with a filter that
deletes everything, a list holding a script tag comes back verbatim, so the
output is not restricted to the allow-list. -/
theorem claim_C9_counterexample :
    sanitize_text (fun _ => "") (.mkArr [.str "<script>x</script>"]) =
      "['<script>x</script>']" ∧
    containsSeq "<script>"
      (sanitize_text (fun _ => "") (.mkArr [.str "<script>x</script>"])) = true :=
  ⟨rfl, by decide⟩

/-- C9 (amended): `sanitize_text` never fails; string inputs go through the
bleach allow-list filter, while non-string inputs are returned as their
Python text representation with no markup filtering applied at all (the
early-return branch). -/
theorem claim_C9_sanitize_branches :
    (∀ (bleach_clean : String → String) (s : String),
      sanitize_text bleach_clean (.str s) = bleach_clean s) ∧
    (∀ (bleach_clean : String → String) (v : JsonValue),
      (∀ s, v ≠ .str s) → sanitize_text bleach_clean v = pyStr v) := by
  refine ⟨fun _ _ => rfl, fun bc v hv => ?_⟩
  cases v
  case str s2 => exact absurd rfl (hv s2)
  all_goals rfl

/-- C9 witness: the filter runs on a string input; a boolean input is
coerced to text untouched. -/
theorem claim_C9_witness :
    sanitize_text (fun _ => "CLEANED") (.str "<script>x</script>") = "CLEANED" ∧
    sanitize_text (fun _ => "CLEANED") (.bool true) = "True" :=
  ⟨claim_C9_sanitize_branches.1 (fun _ => "CLEANED") "<script>x</script>",
   claim_C9_sanitize_branches.2 (fun _ => "CLEANED") (.bool true)
     (fun _ h => JsonValue.noConfusion h)⟩

/-- C6: the three fence patterns are tried in fixed priority order and only
the first one that matches anywhere is applied (then the result is
stripped); when none matches the text is left unchanged. -/
theorem claim_C6_fence_priority (c : String) :
    (existsMatch matchP1At c.data = true →
      applyFencePatterns c =
        ⟨pyStripL (subAll matchP1At (c.data.length + 1) c.data)⟩) ∧
    (existsMatch matchP1At c.data = false → existsMatch matchP2At c.data = true →
      applyFencePatterns c =
        ⟨pyStripL (subAll matchP2At (c.data.length + 1) c.data)⟩) ∧
    (existsMatch matchP1At c.data = false → existsMatch matchP2At c.data = false →
      existsMatch matchP3At c.data = true →
      applyFencePatterns c =
        ⟨pyStripL (subAll matchP3At (c.data.length + 1) c.data)⟩) ∧
    (existsMatch matchP1At c.data = false → existsMatch matchP2At c.data = false →
      existsMatch matchP3At c.data = false → applyFencePatterns c = c) := by
  unfold applyFencePatterns
  refine ⟨fun h1 => ?_, fun h1 h2 => ?_, fun h1 h2 h3 => ?_, fun h1 h2 h3 => ?_⟩
  · rw [if_pos h1]
  · rw [if_neg (by simp [h1]), if_pos h2]
  · rw [if_neg (by simp [h1]), if_neg (by simp [h2]), if_pos h3]
  · rw [if_neg (by simp [h1]), if_neg (by simp [h2]), if_neg (by simp [h3])]

set_option maxRecDepth 4000 in
/-- C6 witness: text containing both a fenced JSON block and a stray inline
backtick span.  The labeled-fence pattern wins: its payload is extracted,
and although the inline pattern does match the text, it is never applied —
the inline backticks survive in the output. -/
theorem claim_C6_witness :
    applyFencePatterns "`hi` ```json\n\x7b\"a\": 1\x7d\n```" = "`hi` \x7b\"a\": 1\x7d" ∧
    existsMatch matchP3At ("`hi` ```json\n\x7b\"a\": 1\x7d\n```".data) = true := by
  constructor
  · rw [(claim_C6_fence_priority "`hi` ```json\n\x7b\"a\": 1\x7d\n```").1 (by decide)]
    rfl
  · decide

theorem dropWhile_idem (p : Char → Bool) (l : List Char) :
    (l.dropWhile p).dropWhile p = l.dropWhile p := by
  induction l with
  | nil => rfl
  | cons c cs ih =>
    by_cases h : p c = true
    · rw [List.dropWhile_cons_of_pos h, ih]
    · rw [List.dropWhile_cons_of_neg h, List.dropWhile_cons_of_neg h]

theorem dropWhile_append_single (p : Char → Bool) (xs : List Char) (c : Char)
    (hc : ¬p c = true) :
    (xs ++ [c]).dropWhile p = xs.dropWhile p ++ [c] := by
  induction xs with
  | nil => rw [List.nil_append, List.dropWhile_cons_of_neg hc]; rfl
  | cons a rest ih =>
    by_cases h : p a = true
    · rw [List.cons_append, List.dropWhile_cons_of_pos h, ih,
        List.dropWhile_cons_of_pos h]
    · rw [List.cons_append, List.dropWhile_cons_of_neg h, List.dropWhile_cons_of_neg h]
      rfl

theorem dropTrailing_cons_of_neg (p : Char → Bool) (c : Char) (cs : List Char)
    (hc : ¬p c = true) :
    dropTrailing p (c :: cs) = c :: dropTrailing p cs := by
  unfold dropTrailing
  rw [List.reverse_cons, dropWhile_append_single p cs.reverse c hc,
    List.reverse_append]
  rfl

theorem dropTrailing_idem (p : Char → Bool) (l : List Char) :
    dropTrailing p (dropTrailing p l) = dropTrailing p l := by
  unfold dropTrailing
  rw [List.reverse_reverse, dropWhile_idem]

theorem dropWhile_head_false (p : Char → Bool) (l : List Char) (c : Char)
    (cs : List Char) (h : l.dropWhile p = c :: cs) : ¬p c = true := by
  induction l with
  | nil => cases h
  | cons a rest ih =>
    by_cases hp : p a = true
    · rw [List.dropWhile_cons_of_pos hp] at h
      exact ih h
    · rw [List.dropWhile_cons_of_neg hp] at h
      cases h
      exact hp

theorem pyStripL_idem (l : List Char) : pyStripL (pyStripL l) = pyStripL l := by
  unfold pyStripL
  cases hd : l.dropWhile isPySpace with
  | nil =>
    show pyStripL (dropTrailing isPySpace []) = dropTrailing isPySpace []
    rfl
  | cons c cs =>
    have hc : ¬isPySpace c = true := dropWhile_head_false isPySpace l c cs hd
    rw [dropTrailing_cons_of_neg isPySpace c cs hc,
      List.dropWhile_cons_of_neg hc,
      dropTrailing_cons_of_neg isPySpace c (dropTrailing isPySpace cs) hc,
      dropTrailing_idem]

theorem json_loads_pyStrip (s : String) : json_loads (pyStrip s) = json_loads s := by
  unfold json_loads pyStrip
  rw [show (String.mk (pyStripL s.data)).data = pyStripL s.data from rfl, pyStripL_idem]

theorem mem_pyStripL_sub {c : Char} {l : List Char} (h : c ∈ pyStripL l) : c ∈ l := by
  unfold pyStripL dropTrailing at h
  rw [List.mem_reverse] at h
  have h2 := (List.dropWhile_sublist _).mem h
  rw [List.mem_reverse] at h2
  exact (List.dropWhile_sublist _).mem h2

theorem removeBOM_id (s : String) (h : '﻿' ∉ s.data) : removeBOM s = s := by
  unfold removeBOM
  rw [List.filter_eq_self.mpr (fun a ha => by
    simp only [decide_eq_true_eq]
    exact fun heq => h (heq ▸ ha))]

theorem isPrefixOf_cons_ex {a : Char} {as l : List Char}
    (h : (a :: as).isPrefixOf l = true) : ∃ t, l = a :: t := by
  cases l with
  | nil => simp [List.isPrefixOf] at h
  | cons c cs =>
    simp only [List.isPrefixOf, Bool.and_eq_true, beq_iff_eq] at h
    exact ⟨cs, by rw [h.1]⟩

theorem matchP1At_head {l g r : List Char} (h : matchP1At l = some (g, r)) :
    ∃ t, l = '`' :: t := by
  unfold matchP1At at h
  by_cases hp : "```json".data.isPrefixOf l = true
  · exact isPrefixOf_cons_ex hp
  · rw [if_neg hp] at h
    cases h

theorem matchP2At_head {l g r : List Char} (h : matchP2At l = some (g, r)) :
    ∃ t, l = '`' :: t := by
  unfold matchP2At at h
  by_cases hp : "```".data.isPrefixOf l = true
  · exact isPrefixOf_cons_ex hp
  · rw [if_neg hp] at h
    cases h

theorem matchP3At_head {l g r : List Char} (h : matchP3At l = some (g, r)) :
    ∃ t, l = '`' :: t := by
  unfold matchP3At at h
  cases l with
  | nil => cases h
  | cons c cs =>
    by_cases hc : c = '`'
    · exact ⟨cs, by rw [hc]⟩
    · rw [show (match (c :: cs : List Char) with
        | '`' :: rest => (match splitSeq "`".data rest with
          | some (mid, post) => some (mid, post)
          | none => none)
        | _ => (none : Option (List Char × List Char))) = none from by
          cases c with
          | mk n hn =>
            simp only []
            split
            · rename_i heq
              injection heq with hch _
              exact absurd hch.symm (by exact fun hh => hc (by rw [hh]))
            · rfl] at h
      cases h

theorem existsMatch_false_of_no_backtick
    (m : List Char → Option (List Char × List Char))
    (hm : ∀ l g r, m l = some (g, r) → ∃ t, l = '`' :: t) :
    ∀ l : List Char, '`' ∉ l → existsMatch m l = false := by
  intro l
  induction l with
  | nil =>
    intro _
    unfold existsMatch
    cases hml : m [] with
    | none => simp
    | some p =>
      obtain ⟨t, ht⟩ := hm [] p.1 p.2 (by rw [hml])
      cases ht
  | cons c cs ih =>
    intro hnotin
    unfold existsMatch
    have hc : m (c :: cs) = none := by
      cases hml : m (c :: cs) with
      | none => rfl
      | some p =>
        obtain ⟨t, ht⟩ := hm _ p.1 p.2 (by rw [hml])
        injection ht with h1 _
        exact absurd (h1 ▸ List.mem_cons_self c cs) hnotin
    rw [hc]
    simp only [Option.isSome_none, Bool.false_or]
    exact ih (fun hmem => hnotin (List.mem_cons_of_mem _ hmem))

theorem applyFencePatterns_id_of_no_backtick (c : String) (h : '`' ∉ c.data) :
    applyFencePatterns c = c := by
  have h1 := existsMatch_false_of_no_backtick matchP1At
    (fun _ _ _ hm => matchP1At_head hm) c.data h
  have h2 := existsMatch_false_of_no_backtick matchP2At
    (fun _ _ _ hm => matchP2At_head hm) c.data h
  have h3 := existsMatch_false_of_no_backtick matchP3At
    (fun _ _ _ hm => matchP3At_head hm) c.data h
  unfold applyFencePatterns
  rw [if_neg (by simp [h1]), if_neg (by simp [h2]), if_neg (by simp [h3])]

/-- The `repair_json` contract instance used by concrete witnesses: a
passthrough repairer satisfies the library's documented behaviour on every
already-valid input. -/
theorem repairId_contract :
    ∀ u v, json_loads u = some v → ∃ t, repairId u = some t ∧ json_loads t = some v :=
  fun u v h => ⟨u, by simp [repairId, h], h⟩

/-- C5 (amended): for any repairer satisfying the `json_repair` contract
(valid JSON is re-serialized to JSON with the same meaning) and any input
that is already strict JSON and contains no backtick and no byte-order-mark
characters, `clean_invalid_json_chars` succeeds and its output parses to the
same structure as the input. -/
theorem claim_C5_clean_preserves_valid_json (repair : String → Option String)
    (hrep : ∀ u v, json_loads u = some v →
      ∃ t, repair u = some t ∧ json_loads t = some v)
    (s : String) (j : JsonValue) (hparse : json_loads s = some j)
    (hbt : '`' ∉ s.data) (hbom : '﻿' ∉ s.data) :
    ∃ t, clean_invalid_json_chars repair s = .ok t ∧ json_loads t = some j := by
  unfold clean_invalid_json_chars
  rw [removeBOM_id s hbom]
  have hbt2 : '`' ∉ (pyStrip s).data := fun hmem => hbt (mem_pyStripL_sub hmem)
  rw [applyFencePatterns_id_of_no_backtick _ hbt2]
  have hps : json_loads (pyStrip s) = some j := by rw [json_loads_pyStrip, hparse]
  obtain ⟨t, hrt, hjt⟩ := hrep (pyStrip s) j hps
  show ∃ t2, (match repair (pyStrip s) with
      | none => (Except.error "Unable to clean JSON" : Except String String)
      | some cleaned =>
        if (json_loads cleaned).isSome = true then Except.ok (pyStrip cleaned)
        else Except.error "Unable to clean JSON") = Except.ok t2 ∧
    json_loads t2 = some j
  simp only [hrt, hjt, Option.isSome_some, if_true]
  exact ⟨pyStrip t, rfl, by rw [json_loads_pyStrip, hjt]⟩

/-- C5 counterexample: the input `{"a": "`x`"}` is strict JSON (backticks
are legal inside JSON strings), yet the inline-backtick fence pattern fires
and strips them, so extraction returns JSON with a different structure: the
field `a` becomes `x` instead of `` `x` ``. -/
theorem claim_C5_counterexample :
    json_loads "\x7b\"a\": \"`x`\"\x7d" = some (.mkObj [("a", .str "`x`")]) ∧
    clean_invalid_json_chars repairId "\x7b\"a\": \"`x`\"\x7d" = .ok "\x7b\"a\": \"x\"\x7d" ∧
    json_loads "\x7b\"a\": \"x\"\x7d" = some (.mkObj [("a", .str "x")]) ∧
    (("`x`" : String) == "x") = false :=
  ⟨rfl, rfl, rfl, by decide⟩

/-- C5 witness: a backtick-free strict-JSON input passes through extraction
with its structure intact. -/
theorem claim_C5_witness :
    ∃ t, clean_invalid_json_chars repairId "\x7b\"a\": \"hello\"\x7d" = .ok t ∧
      json_loads t = some (.mkObj [("a", .str "hello")]) :=
  claim_C5_clean_preserves_valid_json repairId repairId_contract
    "\x7b\"a\": \"hello\"\x7d" (.mkObj [("a", .str "hello")]) (by rfl)
    (by decide) (by decide)
